import Mathlib

/-!
Shallow embedding of the squeeze-scanner core
(`core/indicators.py`, `core/squeeze_detector.py`) and verification of the
spec's claims about it.

Numeric model: pandas/numpy `float64` cells are modelled as `Option ℚ`
(`none` stands for NaN/null); every comparison with a NaN side is `false`,
matching pandas semantics.  The `Close` column of fetched price data is
modelled as `ℚ`.  The Bollinger band-width claim additionally needs the
square root in the rolling standard deviation and IEEE division by zero;
that one function is modelled over `ℝ` with an explicit IEEE-style value
type `FV` (see the `BB` section further down).

Module-level configuration constants (`config.py` is imported by the
source but the file is not part of the sources at hand: `BB_PERIOD`,
`MOMENTUM_LENGTH`, `MIN_DATA_POINTS`, ...) are threaded through as
explicit parameters; every claim quantifies over them.
-/

namespace Squeeze

/-- pandas `a > b` on nullable floats: `false` whenever one side is NaN. -/
def oGT : Option ℚ → Option ℚ → Bool
  | some a, some b => decide (b < a)
  | _, _ => false

/-- pandas `a < b` on nullable floats: `false` whenever one side is NaN. -/
def oLT : Option ℚ → Option ℚ → Bool
  | some a, some b => decide (a < b)
  | _, _ => false

/-- pandas `a <= b` on nullable floats: `false` whenever one side is NaN. -/
def oLE : Option ℚ → Option ℚ → Bool
  | some a, some b => decide (a ≤ b)
  | _, _ => false

/-- pandas `a >= b` on nullable floats: `false` whenever one side is NaN. -/
def oGE : Option ℚ → Option ℚ → Bool
  | some a, some b => decide (b ≤ a)
  | _, _ => false

/-- Round half to even on the exact rational value (Python `round`). -/
def rhe (q : ℚ) : ℤ :=
  if q - ⌊q⌋ < 1/2 then ⌊q⌋
  else if (1:ℚ)/2 < q - ⌊q⌋ then ⌊q⌋ + 1
  else if ⌊q⌋ % 2 = 0 then ⌊q⌋ else ⌊q⌋ + 1

/-- Python `round(x, 2)` on the exact rational value. -/
def round2 (q : ℚ) : ℚ := (rhe (q * 100) : ℚ) / 100

/-- Python `round(x, 4)` on the exact rational value. -/
def round4 (q : ℚ) : ℚ := (rhe (q * 10000) : ℚ) / 10000

/-- `Momentum_Direction` labels produced by `calculate_momentum`
(`np.select` choices plus the `NEUTRAL` default). -/
inductive MomDir where
  | bullishUp
  | bullishDown
  | bearishDown
  | bearishUp
  | neutral
  deriving DecidableEq, Repr

/-- One bar of the indicator-augmented frame: the columns added by
`calculate_all_indicators` plus the raw `Close`/`Volume` data that
`detect_squeeze`, `scan_single_stock` and friends read.  The squeeze
logic consumes these columns as given, so the claims below quantify over
all possible column contents (which covers every output of the indicator
layer). -/
structure IndRow where
  close : ℚ
  bbMiddle : Option ℚ := none
  bbUpper : Option ℚ := none
  bbLower : Option ℚ := none
  bbWidth : Option ℚ := none
  kcUpper : Option ℚ := none
  kcLower : Option ℚ := none
  momentum : Option ℚ := none
  momDir : MomDir := .neutral
  dma200 : Option ℚ := none
  aboveDma200 : Option Bool := none
  dma200Dist : Option ℚ := none
  volume : Option ℚ := none
  deriving DecidableEq, Repr

/-- `df['Squeeze_On'] = (df['BB_Lower'] > df['KC_Lower']) & (df['BB_Upper'] < df['KC_Upper'])`. -/
def squeezeOnCol (f : List IndRow) : List Bool :=
  f.map (fun r => oGT r.bbLower r.kcLower && oLT r.bbUpper r.kcUpper)

/-- `df['Squeeze_Off'] = ~df['Squeeze_On']`. -/
def squeezeOffCol (f : List IndRow) : List Bool :=
  (squeezeOnCol f).map (fun b => !b)

/-- `Series.shift(1)` followed by `.where(notna, False)`: element `i` is
element `i-1` of the input, and the head (the NaN the shift introduces)
becomes `False`. -/
def shiftFalse : List Bool → List Bool
  | [] => []
  | b :: t => false :: (b :: t).dropLast

/-- `df['Squeeze_Fire'] = squeeze_on_shifted & df['Squeeze_Off']`. -/
def squeezeFireCol (f : List IndRow) : List Bool :=
  List.zipWith (fun p o => p && o) (shiftFalse (squeezeOnCol f)) (squeezeOffCol f)

/-- The running-count loop of `detect_squeeze` (`count += 1` while ON,
`count = 0` on OFF). -/
def durScan : List Bool → Nat → List Nat
  | [], _ => []
  | b :: t, c =>
    let c2 := if b then c + 1 else 0
    c2 :: durScan t c2

/-- `df['Squeeze_Duration']`. -/
def squeezeDurCol (f : List IndRow) : List Nat :=
  durScan (squeezeOnCol f) 0

section ColumnLemmas

lemma length_squeezeOnCol (f : List IndRow) : (squeezeOnCol f).length = f.length := by
  simp [squeezeOnCol]

lemma length_squeezeOffCol (f : List IndRow) : (squeezeOffCol f).length = f.length := by
  simp [squeezeOffCol, length_squeezeOnCol]

lemma zipWith_get?_eq {α β γ : Type} (g : α → β → γ) (as : List α) (bs : List β) (i : Nat) :
    (List.zipWith g as bs).get? i
      = (as.get? i).bind (fun a => (bs.get? i).map (g a)) := by
  induction as generalizing bs i with
  | nil => simp
  | cons a as ih =>
    cases bs with
    | nil => simp
    | cons b bs =>
      cases i with
      | zero => simp
      | succ j => simpa using ih bs j

lemma length_shiftFalse (l : List Bool) : (shiftFalse l).length = l.length := by
  cases l with
  | nil => rfl
  | cons b t => simp [shiftFalse]

lemma shiftFalse_get?_zero (l : List Bool) (h : l ≠ []) :
    (shiftFalse l).get? 0 = some false := by
  cases l with
  | nil => exact absurd rfl h
  | cons b t => rfl

lemma shiftFalse_get?_succ (l : List Bool) (i : Nat) (h : i + 1 < l.length) :
    (shiftFalse l).get? (i + 1) = l.get? i := by
  cases l with
  | nil => simp at h
  | cons b t =>
    show ((b :: t).dropLast).get? i = (b :: t).get? i
    rw [List.dropLast_eq_take, List.get?_eq_getElem?, List.get?_eq_getElem?,
        List.getElem?_take_of_lt (by simp at h ⊢; omega)]

lemma squeezeOffCol_get? (f : List IndRow) (i : Nat) (b : Bool)
    (h : (squeezeOnCol f).get? i = some b) :
    (squeezeOffCol f).get? i = some (!b) := by
  rw [squeezeOffCol, List.get?_eq_getElem?, List.getElem?_map, ← List.get?_eq_getElem?, h]
  rfl

lemma squeezeOnCol_get?_isSome (f : List IndRow) (i : Nat) (hi : i < f.length) :
    ∃ b, (squeezeOnCol f).get? i = some b := by
  have : i < (squeezeOnCol f).length := by rw [length_squeezeOnCol]; exact hi
  rcases List.get?_eq_get this with h
  exact ⟨_, h⟩

end ColumnLemmas

/-- C1: on every frame processed by `detect_squeeze`, `Squeeze_Fire` at
bar `i` is true iff bar `i-1` has `Squeeze_On = true` and bar `i` has
`Squeeze_On = false`; for the first bar the shifted predecessor is
replaced by `False`, so the fire flag is false there and the computation
is total. -/
theorem C1_squeeze_fire_transition (f : List IndRow) (i : Nat) (hi : i < f.length) :
    (squeezeFireCol f).get? i = some true ↔
      0 < i ∧ (squeezeOnCol f).get? (i - 1) = some true ∧
        (squeezeOnCol f).get? i = some false := by
  obtain ⟨b, hb⟩ := squeezeOnCol_get?_isSome f i hi
  have hoff := squeezeOffCol_get? f i b hb
  cases i with
  | zero =>
    have hne : squeezeOnCol f ≠ [] := by
      intro h
      rw [h] at hb
      simp at hb
    have hshift := shiftFalse_get?_zero (squeezeOnCol f) hne
    constructor
    · intro h
      rw [squeezeFireCol, zipWith_get?_eq, hshift, hoff] at h
      simp at h
    · rintro ⟨h, -⟩
      exact absurd h (by omega)
  | succ j =>
    obtain ⟨p, hp⟩ := squeezeOnCol_get?_isSome f j (by omega)
    have hshift : (shiftFalse (squeezeOnCol f)).get? (j + 1) = some p := by
      rw [shiftFalse_get?_succ _ j (by rw [length_squeezeOnCol]; exact hi)]
      exact hp
    rw [squeezeFireCol, zipWith_get?_eq, hshift, hoff]
    show some (p && !b) = some true ↔ _
    constructor
    · intro h
      have hpb : (p && !b) = true := Option.some.inj h
      have hp1 : p = true := by
        cases p
        · simp at hpb
        · rfl
      have hb1 : b = false := by
        cases b
        · rfl
        · simp at hpb
      refine ⟨by omega, ?_, ?_⟩
      · simpa [hp1] using hp
      · simpa [hb1] using hb
    · rintro ⟨-, hprev, hcur⟩
      have hp1 : p = true := by
        rw [show j + 1 - 1 = j by omega] at hprev
        rw [hp] at hprev
        exact (Option.some.inj hprev)
      have hb1 : b = false := by
        rw [hb] at hcur
        exact (Option.some.inj hcur)
      simp [hp1, hb1]

/-- Witness frame for C1: one squeeze-on bar followed by a squeeze-off
bar, so the second bar fires. -/
def c1Frame : List IndRow :=
  [{ close := 100, bbLower := some 5, kcLower := some 4,
     bbUpper := some 6, kcUpper := some 7 },
   { close := 101 }]

/-- Witness for C1 at a concrete frame: the ON→OFF bar fires. -/
theorem C1_squeeze_fire_transition_witness :
    (squeezeFireCol c1Frame).get? 1 = some true :=
  (C1_squeeze_fire_transition c1Frame 1 (by decide)).mpr
    ⟨by decide, by decide, by decide⟩

section DurLemmas

/-- `durScan` never drops or adds bars. -/
lemma length_durScan (l : List Bool) (c : Nat) : (durScan l c).length = l.length := by
  induction l generalizing c with
  | nil => rfl
  | cons b t ih => simp [durScan, ih]

lemma durScan_get?_zero_true (l : List Bool) (c : Nat)
    (h : l.get? 0 = some true) :
    (durScan l c).get? 0 = some (c + 1) := by
  cases l with
  | nil => simp at h
  | cons b t =>
    have hb : b = true := by simpa using h
    simp [durScan, hb]

lemma durScan_get?_false (l : List Bool) (c : Nat) (i : Nat)
    (h : l.get? i = some false) :
    (durScan l c).get? i = some 0 := by
  induction l generalizing c i with
  | nil => simp at h
  | cons b t ih =>
    cases i with
    | zero =>
      have hb : b = false := by simpa using h
      simp [durScan, hb]
    | succ j =>
      have ht : t.get? j = some false := by simpa using h
      simpa [durScan] using ih _ j ht

lemma durScan_get?_restart (l : List Bool) (c : Nat) (i : Nat)
    (hprev : l.get? i = some false) (hcur : l.get? (i + 1) = some true) :
    (durScan l c).get? (i + 1) = some 1 := by
  induction l generalizing c i with
  | nil => simp at hprev
  | cons b t ih =>
    cases i with
    | zero =>
      have hb : b = false := by simpa using hprev
      have ht : t.get? 0 = some true := by simpa using hcur
      simpa [durScan, hb] using durScan_get?_zero_true t 0 ht
    | succ j =>
      have hprev' : t.get? j = some false := by simpa using hprev
      have hcur' : t.get? (j + 1) = some true := by simpa using hcur
      simpa [durScan] using ih _ j hprev' hcur'

lemma durScan_get?_step (l : List Bool) (c : Nat) (i : Nat) (d : Nat)
    (hprev : l.get? i = some true) (hcur : l.get? (i + 1) = some true)
    (hd : (durScan l c).get? i = some d) :
    (durScan l c).get? (i + 1) = some (d + 1) := by
  induction l generalizing c i with
  | nil => simp at hprev
  | cons b t ih =>
    cases i with
    | zero =>
      have hb : b = true := by simpa using hprev
      have ht : t.get? 0 = some true := by simpa using hcur
      have hdv : d = c + 1 := by
        have : (durScan (b :: t) c).get? 0 = some (c + 1) := by simp [durScan, hb]
        rw [hd] at this
        exact (Option.some.inj this)
      subst hdv
      simpa [durScan, hb] using durScan_get?_zero_true t (c + 1) ht
    | succ j =>
      have hprev' : t.get? j = some true := by simpa using hprev
      have hcur' : t.get? (j + 1) = some true := by simpa using hcur
      have hd' : (durScan t (if b then c + 1 else 0)).get? j = some d := by
        simpa [durScan] using hd
      simpa [durScan] using ih _ j hprev' hcur' hd'

end DurLemmas

/-- C2: `Squeeze_Duration` is 0 on every OFF bar, 1 on the first bar of a
maximal run of ON bars, and increments by exactly 1 on each later bar of
the run. -/
theorem C2_squeeze_duration_runs (f : List IndRow) (i : Nat) (hi : i < f.length) :
    ((squeezeOnCol f).get? i = some false → (squeezeDurCol f).get? i = some 0) ∧
    ((squeezeOnCol f).get? i = some true →
      (i = 0 ∨ (squeezeOnCol f).get? (i - 1) = some false) →
      (squeezeDurCol f).get? i = some 1) ∧
    (∀ d, 0 < i → (squeezeOnCol f).get? (i - 1) = some true →
      (squeezeOnCol f).get? i = some true →
      (squeezeDurCol f).get? (i - 1) = some d →
      (squeezeDurCol f).get? i = some (d + 1)) := by
  refine ⟨fun h => durScan_get?_false _ 0 i h, ?_, ?_⟩
  · intro hcur hfirst
    rcases hfirst with h0 | hprev
    · subst h0
      simpa using durScan_get?_zero_true (squeezeOnCol f) 0 hcur
    · rcases Nat.eq_zero_or_pos i with h0 | hpos
      · subst h0
        simpa using durScan_get?_zero_true (squeezeOnCol f) 0 hcur
      · obtain ⟨j, hj⟩ := Nat.exists_eq_add_of_lt hpos
        have hij : i = j + 1 := by omega
        subst hij
        simp only [Nat.add_sub_cancel] at hprev
        exact durScan_get?_restart (squeezeOnCol f) 0 j hprev hcur
  · intro d hpos hprev hcur hd
    obtain ⟨j, hj⟩ := Nat.exists_eq_add_of_lt hpos
    have hij : i = j + 1 := by omega
    subst hij
    simp only [Nat.add_sub_cancel] at hprev hd
    exact durScan_get?_step (squeezeOnCol f) 0 j d hprev hcur hd

/-- Witness frame for C2: OFF, ON, ON. -/
def c2Frame : List IndRow :=
  [{ close := 99 },
   { close := 100, bbLower := some 5, kcLower := some 4,
     bbUpper := some 6, kcUpper := some 7 },
   { close := 101, bbLower := some 5, kcLower := some 4,
     bbUpper := some 6, kcUpper := some 7 }]

/-- Witness for C2 at a concrete frame: duration 0 on the OFF bar, 1 on
the first ON bar, 2 on the second ON bar. -/
theorem C2_squeeze_duration_runs_witness :
    (squeezeDurCol c2Frame).get? 0 = some 0 ∧
    (squeezeDurCol c2Frame).get? 1 = some 1 ∧
    (squeezeDurCol c2Frame).get? 2 = some 2 :=
  ⟨(C2_squeeze_duration_runs c2Frame 0 (by decide)).1 (by decide),
   (C2_squeeze_duration_runs c2Frame 1 (by decide)).2.1 (by decide) (Or.inr (by decide)),
   (C2_squeeze_duration_runs c2Frame 2 (by decide)).2.2 1 (by decide) (by decide)
     (by decide) (by decide)⟩

/-! ## `calculate_momentum` (indicators.py) -/

/-- One bar of the frame handed to `calculate_momentum`: raw `Close` plus
the Keltner channel columns computed upstream. -/
structure MRow where
  close : ℚ
  kcUpper : Option ℚ := none
  kcLower : Option ℚ := none
  deriving DecidableEq, Repr

/-- `df['Momentum_Source'] = df['Close'] - ((df['KC_Upper'] + df['KC_Lower']) / 2)`. -/
def momentumSourceCol (f : List MRow) : List (Option ℚ) :=
  f.map (fun r =>
    match r.kcUpper, r.kcLower with
    | some u, some l => some (r.close - (u + l) / 2)
    | _, _ => none)

/-- Collect a window of nullable cells, `none` as soon as any cell is NaN
(the inner `series.isna().any()` guard). -/
def seqWin : List (Option ℚ) → Option (List ℚ)
  | [] => some []
  | none :: _ => none
  | some x :: t => (seqWin t).map (fun ys => x :: ys)

/-- `stats.linregress` against `x = 0, ..., n-1` evaluated at the window's
last point (`intercept + slope * (len(series) - 1)`); `none` when the
regression is degenerate (scipy raises, swallowed by the bare `except`
into NaN). -/
def linregVal (ys : List ℚ) : Option ℚ :=
  let n : ℚ := ys.length
  let sx : ℚ := n * (n - 1) / 2
  let sxx : ℚ := (n - 1) * n * (2 * n - 1) / 6
  let sy : ℚ := ys.sum
  let sxy : ℚ := (ys.enum.map (fun pr => (pr.1 : ℚ) * pr.2)).sum
  let den : ℚ := n * sxx - sx * sx
  if den = 0 then none
  else
    let slope := (n * sxy - sx * sy) / den
    let intercept := (sy - slope * sx) / n
    some (intercept + slope * (n - 1))

/-- `df['Squeeze_Momentum'] = df['Momentum_Source'].rolling(window=L).apply(linreg)`:
bar `i` gets the regression of the window ending at `i` once `i + 1 ≥ L`
(`min_periods` defaults to the window size), NaN before that, NaN whenever
the window contains a NaN, and the inner `len(series) < length` guard of
the source is kept verbatim. -/
def squeezeMomentumCol (f : List MRow) (L : Nat) : List (Option ℚ) :=
  (List.range f.length).map (fun i =>
    if L ≤ i + 1 then
      match seqWin (((momentumSourceCol f).take (i + 1)).drop (i + 1 - L)) with
      | some ys => if ys.length < L then none else linregVal ys
      | none => none
    else none)

/-- Momentum value at bar `i` (NaN flattened). -/
def momAt (f : List MRow) (L i : Nat) : Option ℚ :=
  ((squeezeMomentumCol f L).get? i).join

/-- `df['Squeeze_Momentum'].shift(1)` at bar `i`. -/
def momPrevAt (f : List MRow) (L i : Nat) : Option ℚ :=
  if i = 0 then none else ((squeezeMomentumCol f L).get? (i - 1)).join

/-- One cell of `np.select(conditions, choices, default='NEUTRAL')` for the
momentum direction: `m` the bar's momentum, `p` the shifted previous
value; every comparison with NaN is `false`. -/
def npSelectDir (m p : Option ℚ) : MomDir :=
  if oGT m (some 0) && oGT m p then .bullishUp
  else if oGT m (some 0) && oLE m p then .bullishDown
  else if oLT m (some 0) && oLT m p then .bearishDown
  else if oLT m (some 0) && oGE m p then .bearishUp
  else .neutral

/-- `df['Momentum_Direction']` from `calculate_momentum`. -/
def momDirCol (f : List MRow) (L : Nat) : List MomDir :=
  (List.range f.length).map (fun i => npSelectDir (momAt f L i) (momPrevAt f L i))

lemma momDirCol_get? (f : List MRow) (L i : Nat) (hi : i < f.length) :
    (momDirCol f L).get? i = some (npSelectDir (momAt f L i) (momPrevAt f L i)) := by
  rw [momDirCol, List.get?_eq_getElem?, List.getElem?_map, List.getElem?_range hi]
  rfl

/-- C5 (amended): in `calculate_momentum`'s direction labelling, NaN
momentum, zero momentum, and a NaN previous value all resolve to NEUTRAL;
a tie resolves to BULLISH_DOWN when the momentum is positive and to
BEARISH_UP when it is negative (not to NEUTRAL); the four directional
labels are assigned by sign together with a non-strict first difference
(`>` / `<=` for positive, `<` / `>=` for negative). -/
theorem C5_momentum_direction_labels (f : List MRow) (L i : Nat) (hi : i < f.length) :
    ((momAt f L i = none ∨ momAt f L i = some 0 ∨ momPrevAt f L i = none) →
      (momDirCol f L).get? i = some .neutral) ∧
    (∀ q, momAt f L i = some q → momPrevAt f L i = some q →
      (momDirCol f L).get? i =
        some (if 0 < q then .bullishDown else if q < 0 then .bearishUp else .neutral)) ∧
    (∀ q r, momAt f L i = some q → momPrevAt f L i = some r →
      (0 < q → r < q → (momDirCol f L).get? i = some .bullishUp) ∧
      (0 < q → q ≤ r → (momDirCol f L).get? i = some .bullishDown) ∧
      (q < 0 → q < r → (momDirCol f L).get? i = some .bearishDown) ∧
      (q < 0 → r ≤ q → (momDirCol f L).get? i = some .bearishUp)) := by
  rw [momDirCol_get? f L i hi]
  refine ⟨?_, ?_, ?_⟩
  · rintro (hm | hm | hp)
    · simp [npSelectDir, oGT, oLT, oLE, oGE, hm]
    · simp [npSelectDir, oGT, oLT, oLE, oGE, hm]
    · rcases hmv : momAt f L i with _ | q
      · simp [npSelectDir, oGT, oLT, oLE, oGE, hmv]
      · simp [npSelectDir, oGT, oLT, oLE, oGE, hmv, hp]
  · intro q hm hp
    by_cases h1 : 0 < q
    · simp [npSelectDir, oGT, oLT, oLE, oGE, hm, hp, h1, lt_irrefl, le_refl]
    · by_cases h2 : q < 0
      · simp [npSelectDir, oGT, oLT, oLE, oGE, hm, hp, h1, h2, lt_irrefl, le_refl]
      · simp [npSelectDir, oGT, oLT, oLE, oGE, hm, hp, h1, h2, lt_irrefl, le_refl]
  · intro q r hm hp
    refine ⟨?_, ?_, ?_, ?_⟩
    · intro h1 h2
      simp [npSelectDir, oGT, oLT, oLE, oGE, hm, hp, h1, h2]
    · intro h1 h2
      simp [npSelectDir, oGT, oLT, oLE, oGE, hm, hp, h1, h2, not_lt.mpr h2]
    · intro h1 h2
      simp [npSelectDir, oGT, oLT, oLE, oGE, hm, hp, h1, h2,
        not_lt.mpr (le_of_lt h1)]
    · intro h1 h2
      simp [npSelectDir, oGT, oLT, oLE, oGE, hm, hp, h1, h2,
        not_lt.mpr (le_of_lt h1), not_lt.mpr h2]

/-- Frame on which `calculate_momentum` produces a tied positive momentum:
constant source 10, regression length 2. -/
def c5Frame : List MRow :=
  [{ close := 10, kcUpper := some 0, kcLower := some 0 },
   { close := 10, kcUpper := some 0, kcLower := some 0 },
   { close := 10, kcUpper := some 0, kcLower := some 0 }]

/-- Evaluation of the momentum column on the tie frame: warm-up NaN, then
the flat regression value 10 twice. -/
lemma c5_mom_eval : squeezeMomentumCol c5Frame 2 = [none, some 10, some 10] := by
  rw [squeezeMomentumCol]
  simp [c5Frame, momentumSourceCol, seqWin, List.range_succ]
  rw [linregVal]
  simp [List.enum, List.enumFrom]
  norm_num

lemma c5_momAt : momAt c5Frame 2 2 = some 10 := by
  rw [momAt, c5_mom_eval]
  rfl

lemma c5_momPrevAt : momPrevAt c5Frame 2 2 = some 10 := by
  rw [momPrevAt]
  simp [c5_mom_eval]

/-- Counterexample to C5 as stated: at bar 2 of `c5Frame` the momentum
ties its previous value at `10 > 0`, and the label is BULLISH_DOWN, not
NEUTRAL. -/
theorem C5_counterexample :
    momAt c5Frame 2 2 = some 10 ∧ momPrevAt c5Frame 2 2 = some 10 ∧
    (momDirCol c5Frame 2).get? 2 = some MomDir.bullishDown ∧
    MomDir.bullishDown ≠ MomDir.neutral := by
  refine ⟨c5_momAt, c5_momPrevAt, ?_, by decide⟩
  rw [momDirCol_get? c5Frame 2 2 (by decide), c5_momAt, c5_momPrevAt]
  decide

/-- Witness for the amended C5 at the concrete tie frame. -/
theorem C5_momentum_direction_labels_witness :
    (momDirCol c5Frame 2).get? 2 =
      some (if 0 < (10:ℚ) then MomDir.bullishDown
            else if (10:ℚ) < 0 then MomDir.bearishUp else MomDir.neutral) :=
  (C5_momentum_direction_labels c5Frame 2 2 (by decide)).2.1 10 c5_momAt c5_momPrevAt

/-! ## `detect_entry_signals` (squeeze_detector.py) -/

/-- One bar of a frame carrying squeeze-detection columns, as consumed by
`detect_entry_signals` and `get_squeeze_history`. -/
structure SqRow where
  close : ℚ
  bbUpper : Option ℚ := none
  bbLower : Option ℚ := none
  bbWidth : Option ℚ := none
  momentum : Option ℚ := none
  dma200 : Option ℚ := none
  squeezeOn : Bool := false
  squeezeFire : Bool := false
  deriving DecidableEq, Repr

/-- The per-bar signal columns written by `detect_entry_signals`. -/
structure ESig where
  longSignal : Bool := false
  shortSignal : Bool := false
  breakoutDetected : Bool := false
  isValidBreakout : Bool := false
  invalidReason : String := ""
  signalType : String := "None"
  deriving DecidableEq, Repr

/-- Body of the `detect_entry_signals` loop for bar `i` (the loop starts
at `i = 1`, so bar 0 keeps the initialized defaults), combined with the
`signal_type` mask assignments that follow the loop. -/
def entrySignalRow (i : Nat) (r : SqRow) : ESig :=
  if i = 0 then {}
  else if r.squeezeFire then
    let momentum := r.momentum.getD 0
    if decide (0 < momentum) && oGT (some r.close) r.bbUpper then
      match r.dma200 with
      | some d =>
        if d < r.close then
          { longSignal := true, breakoutDetected := true, isValidBreakout := true,
            signalType := "Bullish Breakout (Valid)" }
        else
          { breakoutDetected := true,
            invalidReason := "Price below 200 DMA (bullish invalid)",
            signalType := "Invalid Breakout" }
      | none =>
          { breakoutDetected := true,
            invalidReason := "Price below 200 DMA (bullish invalid)",
            signalType := "Invalid Breakout" }
    else if decide (momentum < 0) && oLT (some r.close) r.bbLower then
      match r.dma200 with
      | some d =>
        if r.close < d then
          { shortSignal := true, breakoutDetected := true, isValidBreakout := true,
            signalType := "Bearish Breakout (Valid)" }
        else
          { breakoutDetected := true,
            invalidReason := "Price above 200 DMA (bearish invalid)",
            signalType := "Invalid Breakout" }
      | none =>
          { breakoutDetected := true,
            invalidReason := "Price above 200 DMA (bearish invalid)",
            signalType := "Invalid Breakout" }
    else {}
  else {}

/-- `detect_entry_signals` column block, bar by bar. -/
def detectEntrySignals (f : List SqRow) : List ESig :=
  f.enum.map (fun pr => entrySignalRow pr.1 pr.2)

lemma detectEntrySignals_get? (f : List SqRow) (i : Nat) :
    (detectEntrySignals f).get? i = (f.get? i).map (entrySignalRow i) := by
  rw [detectEntrySignals, List.get?_eq_getElem?, List.getElem?_map,
    List.get?_eq_getElem?]
  rw [List.getElem?_enum]
  cases f[i]? <;> rfl

/-- C4 (amended): on a squeeze-fire bar whose momentum/close alignment
makes it a bullish or bearish candidate but whose 200 DMA is null,
`detect_entry_signals` does NOT fall back to a momentum-only valid
signal: it records the breakout and marks it invalid
(`is_valid_breakout = False`) with the corresponding invalid reason. -/
theorem C4_null_trend_marks_invalid (f : List SqRow) (i : Nat) (r : SqRow)
    (hr : f.get? i = some r) (hi : 0 < i) (hf : r.squeezeFire = true)
    (hd : r.dma200 = none) :
    (0 < r.momentum.getD 0 → oGT (some r.close) r.bbUpper = true →
      (detectEntrySignals f).get? i =
        some { breakoutDetected := true,
               invalidReason := "Price below 200 DMA (bullish invalid)",
               signalType := "Invalid Breakout" }) ∧
    (r.momentum.getD 0 < 0 → oLT (some r.close) r.bbLower = true →
      (detectEntrySignals f).get? i =
        some { breakoutDetected := true,
               invalidReason := "Price above 200 DMA (bearish invalid)",
               signalType := "Invalid Breakout" }) := by
  rw [detectEntrySignals_get?, hr]
  constructor
  · intro hm hup
    simp [entrySignalRow, Nat.pos_iff_ne_zero.mp hi, hf, hd, hm, hup]
  · intro hm hlo
    have hnot : ¬ (0 < r.momentum.getD 0) := by
      intro h
      exact absurd hm (not_lt.mpr (le_of_lt h))
    simp [entrySignalRow, Nat.pos_iff_ne_zero.mp hi, hf, hd, hm, hlo, hnot]

/-- Frame with a fire bar that is a bullish candidate (momentum 1,
close above the upper band) but has no 200 DMA value. -/
def c4Frame : List SqRow :=
  [{ close := 9 },
   { close := 10, squeezeFire := true, momentum := some 1,
     bbUpper := some 5, bbLower := some 0 }]

/-- Counterexample to C4 as stated: on `c4Frame`'s fire bar the candidate
breakout with null 200 DMA is marked NOT valid. -/
theorem C4_counterexample :
    ((detectEntrySignals c4Frame).get? 1).map ESig.breakoutDetected = some true ∧
    ((detectEntrySignals c4Frame).get? 1).map ESig.isValidBreakout = some false :=
  ⟨by decide, by decide⟩

/-- Witness for the amended C4 at a concrete frame. -/
theorem C4_null_trend_marks_invalid_witness :
    (detectEntrySignals c4Frame).get? 1 =
      some { breakoutDetected := true,
             invalidReason := "Price below 200 DMA (bullish invalid)",
             signalType := "Invalid Breakout" } :=
  (C4_null_trend_marks_invalid c4Frame 1
      { close := 10, squeezeFire := true, momentum := some 1,
        bbUpper := some 5, bbLower := some 0 }
      rfl (by decide) rfl rfl).1 (by norm_num) (by decide)

/-! ## `calculate_bollinger_bands` (indicators.py)

The rolling standard deviation needs a real square root, and the width
column needs IEEE float division; this section models exactly the
`BB_Middle` / `BB_Upper` / `BB_Lower` / `BB_Width` computation of
`calculate_bollinger_bands` over `ℝ`, with NaN/±Inf made explicit. -/

/-- IEEE-style value of a float cell: NaN, an infinity, or a finite real. -/
inductive FV where
  | nan
  | pinf
  | ninf
  | fin (x : ℝ)

/-- The rolling window of size `p` ending at index `i`. -/
def winEnd (xs : List ℚ) (p i : Nat) : List ℚ :=
  (xs.take (i + 1)).drop (i + 1 - p)

/-- `df['BB_Middle'] = df['Close'].rolling(window=period).mean()`:
NaN until the window is full. -/
def bbMiddle (xs : List ℚ) (p i : Nat) : Option ℚ :=
  if 1 ≤ p ∧ p ≤ i + 1 ∧ i < xs.length then
    some ((winEnd xs p i).sum / (p : ℚ))
  else none

/-- Sample variance of the rolling window
(`df['Close'].rolling(window=period).std()` squared, `ddof = 1`): NaN
until the window is full and NaN for a single-element window. -/
def bbVar (xs : List ℚ) (p i : Nat) : Option ℚ :=
  if 2 ≤ p ∧ p ≤ i + 1 ∧ i < xs.length then
    some (((winEnd xs p i).map
      (fun x => (x - (winEnd xs p i).sum / (p : ℚ)) ^ 2)).sum / ((p : ℚ) - 1))
  else none

/-- The rolling standard deviation itself. -/
noncomputable def bbStd (xs : List ℚ) (p i : Nat) : Option ℝ :=
  (bbVar xs p i).map (fun v => Real.sqrt (v : ℝ))

/-- `df['BB_Upper'] = df['BB_Middle'] + (std_dev * rolling_std)`. -/
noncomputable def bbUpper (xs : List ℚ) (p : Nat) (k : ℚ) (i : Nat) : Option ℝ :=
  match bbMiddle xs p i, bbStd xs p i with
  | some m, some s => some ((m : ℝ) + (k : ℝ) * s)
  | _, _ => none

/-- `df['BB_Lower'] = df['BB_Middle'] - (std_dev * rolling_std)`. -/
noncomputable def bbLower (xs : List ℚ) (p : Nat) (k : ℚ) (i : Nat) : Option ℝ :=
  match bbMiddle xs p i, bbStd xs p i with
  | some m, some s => some ((m : ℝ) - (k : ℝ) * s)
  | _, _ => none

section WidthDef

open Classical

/-- `df['BB_Width'] = ((df['BB_Upper'] - df['BB_Lower']) / df['BB_Middle']) * 100`
with IEEE semantics for the division: any NaN operand gives NaN, and
division by zero gives `±Inf` for a nonzero numerator and NaN for `0/0`. -/
noncomputable def bbWidthFV (xs : List ℚ) (p : Nat) (k : ℚ) (i : Nat) : FV :=
  match bbUpper xs p k i, bbLower xs p k i, bbMiddle xs p i with
  | some u, some l, some m =>
    if m = 0 then
      (if u - l = 0 then FV.nan else if 0 < u - l then FV.pinf else FV.ninf)
    else FV.fin ((u - l) / (m : ℝ) * 100)
  | _, _, _ => FV.nan

end WidthDef

/-- C7 (amended): the width computation has NO explicit guard for a zero
middle band.  A null (NaN) middle propagates to a NaN width, but a middle
band that is exactly zero yields `+Inf` whenever the band has positive
width (and `0/0 = NaN` when the band is degenerate) — it is not mapped to
null by any guard.  With a nonzero middle the width is the ordinary
finite value. -/
theorem C7_bb_width_zero_middle (xs : List ℚ) (p : Nat) (k : ℚ) (i : Nat)
    (hk : 0 ≤ k) :
    (bbMiddle xs p i = none → bbWidthFV xs p k i = FV.nan) ∧
    (bbMiddle xs p i = some 0 →
      bbWidthFV xs p k i = FV.nan ∨ bbWidthFV xs p k i = FV.pinf) ∧
    (∀ m, bbMiddle xs p i = some m → m ≠ 0 → bbVar xs p i ≠ none →
      ∃ x, bbWidthFV xs p k i = FV.fin x) := by
  refine ⟨?_, ?_, ?_⟩
  · intro h
    simp [bbWidthFV, bbUpper, bbLower, bbStd, h]
  · intro h0
    cases hv : bbVar xs p i with
    | none =>
      left
      simp [bbWidthFV, bbUpper, bbLower, bbStd, h0, hv]
    | some v =>
      have hstd : bbStd xs p i = some (Real.sqrt (v : ℝ)) := by
        rw [bbStd, hv]
        rfl
      simp only [bbWidthFV, bbUpper, bbLower, h0, hstd]
      have hdiff : (((0:ℚ):ℝ) + (k:ℝ) * Real.sqrt ((v:ℚ):ℝ))
          - (((0:ℚ):ℝ) - (k:ℝ) * Real.sqrt ((v:ℚ):ℝ))
          = 2 * ((k:ℝ) * Real.sqrt ((v:ℚ):ℝ)) := by
        ring
      rw [hdiff]
      by_cases hz : 2 * ((k:ℝ) * Real.sqrt ((v:ℚ):ℝ)) = 0
      · left
        simp [hz]
      · right
        have hge : (0:ℝ) ≤ 2 * ((k:ℝ) * Real.sqrt ((v:ℚ):ℝ)) := by positivity
        have hpos : (0:ℝ) < 2 * ((k:ℝ) * Real.sqrt ((v:ℚ):ℝ)) :=
          lt_of_le_of_ne hge (Ne.symm hz)
        simp [hz, hpos]
  · intro m hm hmne hv
    cases hv2 : bbVar xs p i with
    | none => exact absurd hv2 hv
    | some v =>
      have hstd : bbStd xs p i = some (Real.sqrt (v : ℝ)) := by
        rw [bbStd, hv2]
        rfl
      refine ⟨((m:ℝ) + (k:ℝ) * Real.sqrt ((v:ℚ):ℝ)
        - ((m:ℝ) - (k:ℝ) * Real.sqrt ((v:ℚ):ℝ))) / (m : ℝ) * 100, ?_⟩
      simp only [bbWidthFV, bbUpper, bbLower, hm, hstd]
      rw [if_neg hmne]

/-- Closes whose 5-bar window has mean exactly 0 and sample variance 25. -/
def bb7xs : List ℚ := [5, -5, 5, -5, 0]

lemma bb7_middle : bbMiddle bb7xs 5 4 = some 0 := by
  rw [bbMiddle]
  simp [bb7xs, winEnd]

lemma bb7_var : bbVar bb7xs 5 4 = some 25 := by
  rw [bbVar]
  simp [bb7xs, winEnd]
  norm_num

/-- Counterexample to C7 as stated: on `bb7xs` with the default
parameters `period = 5`-style full window and `std_dev = 2`, the middle
band is exactly zero and the emitted width is `+Inf`, not null — there is
no zero guard in `calculate_bollinger_bands`. -/
theorem C7_counterexample :
    bbMiddle bb7xs 5 4 = some 0 ∧
    bbWidthFV bb7xs 5 2 4 = FV.pinf ∧ FV.pinf ≠ FV.nan := by
  refine ⟨bb7_middle, ?_, fun h => FV.noConfusion h⟩
  have hstd : bbStd bb7xs 5 4 = some (Real.sqrt ((25:ℚ) : ℝ)) := by
    rw [bbStd, bb7_var]
    rfl
  have hs : (0:ℝ) < Real.sqrt ((25:ℚ) : ℝ) := by
    apply Real.sqrt_pos.mpr
    norm_num
  simp only [bbWidthFV, bbUpper, bbLower, bb7_middle, hstd]
  have hdiff : ((((0:ℚ)):ℝ) + ((2:ℚ):ℝ) * Real.sqrt ((25:ℚ):ℝ))
      - ((((0:ℚ)):ℝ) - ((2:ℚ):ℝ) * Real.sqrt ((25:ℚ):ℝ))
      = 4 * Real.sqrt ((25:ℚ):ℝ) := by
    push_cast
    ring
  rw [hdiff]
  have hpos : (0:ℝ) < 4 * Real.sqrt ((25:ℚ):ℝ) := by positivity
  simp [ne_of_gt hpos, hpos]

/-- Witness for the amended C7: on the concrete zero-middle frame the
width is NaN-or-`+Inf` (in fact `+Inf`), never a guarded null. -/
theorem C7_bb_width_zero_middle_witness :
    bbWidthFV bb7xs 5 2 4 = FV.nan ∨ bbWidthFV bb7xs 5 2 4 = FV.pinf :=
  (C7_bb_width_zero_middle bb7xs 5 2 4 (by norm_num)).2.1 bb7_middle

/-! ## `get_squeeze_history` (squeeze_detector.py)

The loop is modelled structurally over the remaining rows while keeping
the running index `i`; every other `iloc` access of the source is an
`Option` lookup into the full frame, and a `none` result of the whole
function models an uncaught IndexError (C10 proves it never occurs).
Frames are modelled without a `Date` column, so `start_date`/`end_date`
are the positional indices the source falls back to. -/

/-- Breakout direction labels used by `get_squeeze_history`. -/
inductive HDir where
  | bullish
  | bearish
  | invalid
  | pending
  deriving DecidableEq, Repr

/-- `end_date` of an event: a fire-bar index or the literal `'Ongoing'`. -/
inductive EvEnd where
  | idx (i : Nat)
  | ongoing
  deriving DecidableEq, Repr

/-- One element of the event list returned by `get_squeeze_history`. -/
structure Event where
  startDate : Nat
  endDate : EvEnd
  duration : Nat
  direction : HDir
  bbWidthBefore : ℚ
  minBBWidth : ℚ
  priceAtBreakout : ℚ
  move5d : ℚ
  move10d : ℚ
  move20d : ℚ
  momentum : ℚ
  deriving DecidableEq, Repr

/-- Direction decision on the fire bar of a closing event: trend-validated
when the 200 DMA is available, momentum-only fallback otherwise (raw
momentum, so a NaN momentum fails every comparison). -/
def dirOfHist (r : SqRow) : HDir :=
  match r.dma200 with
  | some d =>
    if oGT r.momentum (some 0) && decide (d < r.close) then .bullish
    else if oLT r.momentum (some 0) && decide (r.close < d) then .bearish
    else .invalid
  | none => if oGT r.momentum (some 0) then .bullish else .bearish

/-- Forward close sample `h` bars after the fire bar `i`:
`df.iloc[min(i + h, len(df) - 1)]['Close'] if i + h < len(df) else row['Close']`. -/
def fwdClose (f : List SqRow) (n i h : Nat) : Option ℚ :=
  if i + h < n then (f.get? (min (i + h) (n - 1))).map SqRow.close
  else (f.get? i).map SqRow.close

/-- Close an event at fire bar `i` with squeeze state `(s, mbw)`: the body
of the `elif not row['Squeeze_On'] and in_squeeze` branch.  The `start_row`
lookup of the source is kept (it is only used for the absent `Date`
column) as a bounds check. -/
def closeEvent (f : List SqRow) (n i s : Nat) (mbw : ℚ) (row : SqRow) : Option Event :=
  match f.get? s, (if 0 < i then f.get? (i - 1) else some row),
        fwdClose f n i 5, fwdClose f n i 10, fwdClose f n i 20 with
  | some _, some prevRow, some p5, some p10, some p20 =>
    let c := row.close
    some {
      startDate := s
      endDate := .idx i
      duration := i - s
      direction := dirOfHist row
      bbWidthBefore := round2 (prevRow.bbWidth.getD 0)
      minBBWidth := if mbw = 0 then 0 else round2 mbw
      priceAtBreakout := round2 c
      move5d := round2 ((p5 - c) / c * 100)
      move10d := round2 ((p10 - c) / c * 100)
      move20d := round2 ((p20 - c) / c * 100)
      momentum := match row.momentum with | some m => round4 m | none => 0 }
  | _, _, _, _, _ => none

/-- The trailing PENDING event emitted when the series ends inside a
squeeze (`latest = df.iloc[-1]`). -/
def pendingEvent (f : List SqRow) (n s : Nat) (mbw : ℚ) : Option Event :=
  match f.get? (n - 1), f.get? s with
  | some latest, some _ =>
    some {
      startDate := s
      endDate := .ongoing
      duration := n - s
      direction := .pending
      bbWidthBefore := match latest.bbWidth with | some w => round2 w | none => 0
      minBBWidth := if mbw = 0 then 0 else round2 mbw
      priceAtBreakout := 0
      move5d := 0
      move10d := 0
      move20d := 0
      momentum := match latest.momentum with | some m => round4 m | none => 0 }
  | _, _ => none

/-- The scan loop of `get_squeeze_history`: `rest` is the frame from bar
`i` on, `st = some (start_idx, min_bb_width)` while inside a squeeze,
`acc` holds the emitted events newest first. -/
def histLoop (f : List SqRow) (n : Nat) :
    List SqRow → Nat → Option (Nat × ℚ) → List Event → Option (List Event)
  | [], _, none, acc => some acc.reverse
  | [], _, some (s, mbw), acc =>
    (match pendingEvent f n s mbw with
     | some ev => some (ev :: acc).reverse
     | none => none)
  | row :: rest, i, st, acc =>
    match st, row.squeezeOn with
    | none, true =>
      histLoop f n rest (i + 1) (some (i, row.bbWidth.getD 999)) acc
    | some (s, mbw), true =>
      histLoop f n rest (i + 1)
        (some (s, match row.bbWidth with
                  | some w => if w < mbw then w else mbw
                  | none => mbw)) acc
    | some (s, mbw), false =>
      (match closeEvent f n i s mbw row with
       | some ev => histLoop f n rest (i + 1) none (ev :: acc)
       | none => none)
    | none, false => histLoop f n rest (i + 1) none acc

/-- `get_squeeze_history` for a frame that already carries the squeeze
columns; `none` models an uncaught IndexError. -/
def getSqueezeHistory (f : List SqRow) : Option (List Event) :=
  histLoop f f.length f 0 none []

/-- Soundness of one emitted event with respect to its fire bar: the
direction, the price at breakout and the three forward moves are the ones
the source computes from that bar. -/
def GoodEv (f : List SqRow) (e : Event) : Prop :=
  ∀ i, e.endDate = .idx i →
    ∃ row, f.get? i = some row ∧
      e.direction = dirOfHist row ∧
      e.priceAtBreakout = round2 row.close ∧
      (∃ p, fwdClose f f.length i 5 = some p ∧
        e.move5d = round2 ((p - row.close) / row.close * 100)) ∧
      (∃ p, fwdClose f f.length i 10 = some p ∧
        e.move10d = round2 ((p - row.close) / row.close * 100)) ∧
      (∃ p, fwdClose f f.length i 20 = some p ∧
        e.move20d = round2 ((p - row.close) / row.close * 100))

section HistLemmas

lemma fwdClose_isSome (f : List SqRow) (i h : Nat) (hi : i < f.length) :
    ∃ p, fwdClose f f.length i h = some p := by
  rw [fwdClose]
  split_ifs with hlt
  · have hidx : min (i + h) (f.length - 1) < f.length := by omega
    rcases List.get?_eq_get hidx with hg
    exact ⟨_, by rw [hg]; rfl⟩
  · rcases List.get?_eq_get hi with hg
    exact ⟨_, by rw [hg]; rfl⟩

lemma closeEvent_isSome (f : List SqRow) (i s : Nat) (mbw : ℚ) (row : SqRow)
    (hi : i < f.length) (hs : s < f.length) (hrow : f.get? i = some row) :
    ∃ ev, closeEvent f f.length i s mbw row = some ev ∧
      ev.endDate = .idx i ∧ GoodEv f ev := by
  rcases List.get?_eq_get hs with hgs
  have hprev : ∃ pr, (if 0 < i then f.get? (i - 1) else some row) = some pr := by
    split_ifs with h0
    · exact ⟨_, List.get?_eq_get (by omega)⟩
    · exact ⟨row, rfl⟩
  rcases hprev with ⟨pr, hpr⟩
  rcases fwdClose_isSome f i 5 hi with ⟨p5, h5⟩
  rcases fwdClose_isSome f i 10 hi with ⟨p10, h10⟩
  rcases fwdClose_isSome f i 20 hi with ⟨p20, h20⟩
  have hev : closeEvent f f.length i s mbw row = some {
      startDate := s
      endDate := .idx i
      duration := i - s
      direction := dirOfHist row
      bbWidthBefore := round2 (pr.bbWidth.getD 0)
      minBBWidth := if mbw = 0 then 0 else round2 mbw
      priceAtBreakout := round2 row.close
      move5d := round2 ((p5 - row.close) / row.close * 100)
      move10d := round2 ((p10 - row.close) / row.close * 100)
      move20d := round2 ((p20 - row.close) / row.close * 100)
      momentum := match row.momentum with | some m => round4 m | none => 0 } := by
    rw [closeEvent, hgs, hpr, h5, h10, h20]
  refine ⟨_, hev, rfl, ?_⟩
  intro j hj
  have hij : j = i := by
    cases hj
    rfl
  subst hij
  exact ⟨row, hrow, rfl, rfl, ⟨p5, h5, rfl⟩, ⟨p10, h10, rfl⟩, ⟨p20, h20, rfl⟩⟩

lemma pendingEvent_isSome (f : List SqRow) (s : Nat) (mbw : ℚ)
    (hs : s < f.length) :
    ∃ ev, pendingEvent f f.length s mbw = some ev ∧ GoodEv f ev := by
  rcases List.get?_eq_get (show f.length - 1 < f.length by omega) with hlast
  rcases List.get?_eq_get hs with hgs
  have hev : pendingEvent f f.length s mbw = some {
      startDate := s
      endDate := .ongoing
      duration := f.length - s
      direction := .pending
      bbWidthBefore := match (f.get ⟨f.length - 1, by omega⟩).bbWidth with
                       | some w => round2 w | none => 0
      minBBWidth := if mbw = 0 then 0 else round2 mbw
      priceAtBreakout := 0
      move5d := 0
      move10d := 0
      move20d := 0
      momentum := match (f.get ⟨f.length - 1, by omega⟩).momentum with
                  | some m => round4 m | none => 0 } := by
    rw [pendingEvent, hlast, hgs]
  refine ⟨_, hev, ?_⟩
  intro j hj
  exact absurd hj (by simp)

lemma histLoop_sound (f : List SqRow) :
    ∀ (rest : List SqRow) (i : Nat) (st : Option (Nat × ℚ)) (acc : List Event),
      f.drop i = rest →
      i + rest.length = f.length →
      (∀ s mbw, st = some (s, mbw) → s < f.length) →
      (∀ e ∈ acc, GoodEv f e) →
      ∃ evs, histLoop f f.length rest i st acc = some evs ∧ ∀ e ∈ evs, GoodEv f e := by
  intro rest
  induction rest with
  | nil =>
    intro i st acc hdrop hlen hst hacc
    cases st with
    | none =>
      refine ⟨acc.reverse, rfl, ?_⟩
      intro e he
      exact hacc e (List.mem_reverse.mp he)
    | some pr =>
      rcases pr with ⟨s, mbw⟩
      rcases pendingEvent_isSome f s mbw (hst s mbw rfl) with ⟨ev, hev, hgood⟩
      refine ⟨(ev :: acc).reverse, ?_, ?_⟩
      · rw [histLoop, hev]
      · intro e he
        rcases List.mem_cons.mp (List.mem_reverse.mp he) with h | h
        · exact h ▸ hgood
        · exact hacc e h
  | cons row rest ih =>
    intro i st acc hdrop hlen hst hacc
    have hi : i < f.length := by
      simp at hlen
      omega
    have hrowi : f.get? i = some row := by
      have := List.get?_drop f i 0
      rw [hdrop] at this
      simpa using this.symm
    have hdrop2 : f.drop (i + 1) = rest := by
      have : f.drop (i + 1) = (f.drop i).drop 1 := by
        rw [List.drop_drop]
      rw [this, hdrop]
      rfl
    have hlen2 : (i + 1) + rest.length = f.length := by
      simp at hlen ⊢
      omega
    cases st with
    | none =>
      cases hon : row.squeezeOn with
      | true =>
        have hgoal : histLoop f f.length (row :: rest) i none acc
            = histLoop f f.length rest (i + 1) (some (i, row.bbWidth.getD 999)) acc := by
          simp only [histLoop, hon]
        rw [hgoal]
        exact ih (i + 1) (some (i, row.bbWidth.getD 999)) acc hdrop2 hlen2
          (by
            intro s mbw hsm
            cases hsm
            exact hi) hacc
      | false =>
        have hgoal : histLoop f f.length (row :: rest) i none acc
            = histLoop f f.length rest (i + 1) none acc := by
          simp only [histLoop, hon]
        rw [hgoal]
        exact ih (i + 1) none acc hdrop2 hlen2 (by intro s mbw h; cases h) hacc
    | some pr =>
      rcases pr with ⟨s, mbw⟩
      have hslt : s < f.length := hst s mbw rfl
      cases hon : row.squeezeOn with
      | true =>
        have hgoal : histLoop f f.length (row :: rest) i (some (s, mbw)) acc
            = histLoop f f.length rest (i + 1)
                (some (s, match row.bbWidth with
                          | some w => if w < mbw then w else mbw
                          | none => mbw)) acc := by
          simp only [histLoop, hon]
        rw [hgoal]
        exact ih (i + 1)
          (some (s, match row.bbWidth with
                    | some w => if w < mbw then w else mbw
                    | none => mbw)) acc hdrop2 hlen2
          (by
            intro s2 mbw2 hsm
            cases hsm
            exact hslt) hacc
      | false =>
        rcases closeEvent_isSome f i s mbw row hi hslt hrowi with ⟨ev, hev, -, hgood⟩
        rcases ih (i + 1) none (ev :: acc) hdrop2 hlen2 (by intro s2 mbw2 h; cases h)
          (by
            intro e he
            rcases List.mem_cons.mp he with h | h
            · exact h ▸ hgood
            · exact hacc e h) with ⟨evs, hrun, hall⟩
        refine ⟨evs, ?_, hall⟩
        simp only [histLoop, hon, hev]
        exact hrun

end HistLemmas

/-- C10: `get_squeeze_history` is total — every index access inside the
loop is in bounds (the previous-bar lookup is guarded by `i > 0`, forward
samples are bounds-checked), so on every frame it returns an event list
and never raises. -/
theorem C10_history_total (f : List SqRow) :
    ∃ evs, getSqueezeHistory f = some evs := by
  rcases histLoop_sound f f 0 none [] rfl (by simp) (by intro s mbw h; cases h)
    (by intro e he; cases he) with ⟨evs, hrun, -⟩
  exact ⟨evs, hrun⟩

/-- Every event list `get_squeeze_history` returns is sound. -/
lemma getSqueezeHistory_good (f : List SqRow) (evs : List Event)
    (hrun : getSqueezeHistory f = some evs) :
    ∀ e ∈ evs, GoodEv f e := by
  rcases histLoop_sound f f 0 none [] rfl (by simp) (by intro s mbw h; cases h)
    (by intro e he; cases he) with ⟨evs2, hrun2, hall⟩
  rw [getSqueezeHistory] at hrun
  rw [hrun] at hrun2
  cases hrun2
  exact hall

lemma fwdClose_spec (f : List SqRow) (i h : Nat) (row : SqRow)
    (hrow : f.get? i = some row) :
    (i + h < f.length → fwdClose f f.length i h = (f.get? (i + h)).map SqRow.close) ∧
    (f.length ≤ i + h → fwdClose f f.length i h = some row.close) := by
  constructor
  · intro hlt
    rw [fwdClose, if_pos hlt, Nat.min_eq_left (by omega)]
  · intro hge
    rw [fwdClose, if_neg (by omega), hrow]
    rfl

/-- C3 (amended): for every event closed at fire bar `i`, the forward
sample for horizon `h ∈ {5, 10, 20}` is the close of bar `i + h` when
`i + h < n`, and otherwise the close of the FIRE BAR ITSELF (the source's
`else row['Close']` fallback), not the close of the last available bar;
`move_h` is the rounded percentage move of that sample against the
fire-bar close, and no event is dropped and no out-of-range access
occurs. -/
theorem C3_forward_moves (f : List SqRow) (evs : List Event) (e : Event)
    (i : Nat) (row : SqRow)
    (hrun : getSqueezeHistory f = some evs) (he : e ∈ evs)
    (hend : e.endDate = .idx i) (hrow : f.get? i = some row) :
    (∃ p, fwdClose f f.length i 5 = some p ∧
      e.move5d = round2 ((p - row.close) / row.close * 100) ∧
      (i + 5 < f.length → (f.get? (i + 5)).map SqRow.close = some p) ∧
      (f.length ≤ i + 5 → p = row.close)) ∧
    (∃ p, fwdClose f f.length i 10 = some p ∧
      e.move10d = round2 ((p - row.close) / row.close * 100) ∧
      (i + 10 < f.length → (f.get? (i + 10)).map SqRow.close = some p) ∧
      (f.length ≤ i + 10 → p = row.close)) ∧
    (∃ p, fwdClose f f.length i 20 = some p ∧
      e.move20d = round2 ((p - row.close) / row.close * 100) ∧
      (i + 20 < f.length → (f.get? (i + 20)).map SqRow.close = some p) ∧
      (f.length ≤ i + 20 → p = row.close)) := by
  obtain ⟨row2, hrow2, -, -, h5x, h10x, h20x⟩ :=
    getSqueezeHistory_good f evs hrun e he i hend
  have hre : row2 = row := by
    rw [hrow2] at hrow
    exact Option.some.inj hrow
  subst hre
  rcases h5x with ⟨p5, hp5, hm5⟩
  rcases h10x with ⟨p10, hp10, hm10⟩
  rcases h20x with ⟨p20, hp20, hm20⟩
  refine ⟨⟨p5, hp5, hm5, ?_, ?_⟩, ⟨p10, hp10, hm10, ?_, ?_⟩, ⟨p20, hp20, hm20, ?_, ?_⟩⟩
  · intro hlt
    have hs := (fwdClose_spec f i 5 row2 hrow2).1 hlt
    rw [hs] at hp5
    exact hp5
  · intro hge
    have hs := (fwdClose_spec f i 5 row2 hrow2).2 hge
    rw [hs] at hp5
    exact (Option.some.inj hp5).symm
  · intro hlt
    have hs := (fwdClose_spec f i 10 row2 hrow2).1 hlt
    rw [hs] at hp10
    exact hp10
  · intro hge
    have hs := (fwdClose_spec f i 10 row2 hrow2).2 hge
    rw [hs] at hp10
    exact (Option.some.inj hp10).symm
  · intro hlt
    have hs := (fwdClose_spec f i 20 row2 hrow2).1 hlt
    rw [hs] at hp20
    exact hp20
  · intro hge
    have hs := (fwdClose_spec f i 20 row2 hrow2).2 hge
    rw [hs] at hp20
    exact (Option.some.inj hp20).symm

/-- Frame whose squeeze fires at bar 1 with the series ending at bar 2;
the 5/10/20-bar horizons all overrun the series, and the last bar's close
(200) differs from the fire bar's close (100). -/
def c3Frame : List SqRow :=
  [{ close := 100, squeezeOn := true, bbWidth := some 1, momentum := some 1 },
   { close := 100, momentum := some 1 },
   { close := 200 }]

/-- The one event `get_squeeze_history` emits on `c3Frame`. -/
def c3Event : Event :=
  { startDate := 0, endDate := .idx 1, duration := 1, direction := .bullish,
    bbWidthBefore := 1, minBBWidth := 1, priceAtBreakout := 100,
    move5d := 0, move10d := 0, move20d := 0, momentum := 1 }

lemma c3_hist_eval : getSqueezeHistory c3Frame = some [c3Event] := by
  have h00 : round2 (0:ℚ) = 0 := by norm_num [round2, rhe]
  have h1 : round2 (1:ℚ) = 1 := by norm_num [round2, rhe]
  have h100 : round2 (100:ℚ) = 100 := by norm_num [round2, rhe]
  have h41 : round4 (1:ℚ) = 1 := by norm_num [round4, rhe]
  simp [getSqueezeHistory, histLoop, closeEvent, fwdClose, dirOfHist, oGT,
    c3Frame, c3Event, h00, h1, h100, h41]

/-- Counterexample to C3 as stated: on `c3Frame` the event fires at bar 1
with all horizons overrunning the 3-bar series; the last bar's close is
200, so the claim predicts `move_5d = (200 - 100) / 100 * 100 = 100`, but
the code samples the fire bar's own close and emits `move_5d = 0`. -/
theorem C3_counterexample :
    getSqueezeHistory c3Frame = some [c3Event] ∧
    c3Event.move5d = 0 ∧
    (c3Frame.get? (c3Frame.length - 1)).map SqRow.close = some 200 ∧
    round2 (((200:ℚ) - 100) / 100 * 100) = 100 ∧
    (0:ℚ) ≠ 100 := by
  refine ⟨c3_hist_eval, rfl, rfl, ?_, by norm_num⟩
  norm_num [round2, rhe]

/-- Witness for the amended C3 on `c3Frame`: the overrunning horizon
samples the fire bar's own close. -/
theorem C3_forward_moves_witness :
    ∃ p, fwdClose c3Frame c3Frame.length 1 5 = some p ∧
      c3Event.move5d = round2 ((p - 100) / 100 * 100) ∧
      (1 + 5 < c3Frame.length → (c3Frame.get? (1 + 5)).map SqRow.close = some p) ∧
      (c3Frame.length ≤ 1 + 5 → p = 100) := by
  have h := (C3_forward_moves c3Frame [c3Event] c3Event 1
    { close := 100, momentum := some 1 } c3_hist_eval (by simp) rfl rfl).1
  simpa using h

/-- C6: every event emitted with a defined 200 DMA at its fire bar is
trend-consistent — BULLISH implies the fire close is strictly above the
DMA, BEARISH implies strictly below. -/
theorem C6_direction_trend_consistent (f : List SqRow) (evs : List Event)
    (e : Event) (i : Nat) (row : SqRow) (d : ℚ)
    (hrun : getSqueezeHistory f = some evs) (he : e ∈ evs)
    (hend : e.endDate = .idx i) (hrow : f.get? i = some row)
    (hd : row.dma200 = some d) :
    (e.direction = .bullish → d < row.close) ∧
    (e.direction = .bearish → row.close < d) := by
  obtain ⟨row2, hrow2, hdir, -, -, -, -⟩ :=
    getSqueezeHistory_good f evs hrun e he i hend
  have hre : row2 = row := by
    rw [hrow2] at hrow
    exact Option.some.inj hrow
  subst hre
  have hdir2 : e.direction =
      (if oGT row2.momentum (some 0) && decide (d < row2.close) then HDir.bullish
       else if oLT row2.momentum (some 0) && decide (row2.close < d) then HDir.bearish
       else HDir.invalid) := by
    rw [hdir, dirOfHist, hd]
  constructor
  · intro hb
    rw [hb] at hdir2
    split_ifs at hdir2 with h1 h2
    rcases Bool.and_eq_true_iff.mp h1 with ⟨-, h12⟩
    exact of_decide_eq_true h12
  · intro hb
    rw [hb] at hdir2
    split_ifs at hdir2 with h1 h2
    rcases Bool.and_eq_true_iff.mp h2 with ⟨-, h22⟩
    exact of_decide_eq_true h22

/-- Frame firing at bar 1 with a defined 200 DMA below the close. -/
def c6Frame : List SqRow :=
  [{ close := 100, squeezeOn := true, bbWidth := some 1 },
   { close := 110, momentum := some 2, dma200 := some 50 }]

/-- The one event `get_squeeze_history` emits on `c6Frame`. -/
def c6Event : Event :=
  { startDate := 0, endDate := .idx 1, duration := 1, direction := .bullish,
    bbWidthBefore := 1, minBBWidth := 1, priceAtBreakout := 110,
    move5d := 0, move10d := 0, move20d := 0, momentum := 2 }

lemma c6_hist_eval : getSqueezeHistory c6Frame = some [c6Event] := by
  have h00 : round2 (0:ℚ) = 0 := by norm_num [round2, rhe]
  have h1 : round2 (1:ℚ) = 1 := by norm_num [round2, rhe]
  have h110 : round2 (110:ℚ) = 110 := by norm_num [round2, rhe]
  have h42 : round4 (2:ℚ) = 2 := by norm_num [round4, rhe]
  have hlt : (50:ℚ) < 110 := by norm_num
  have hm2 : (0:ℚ) < 2 := by norm_num
  simp [getSqueezeHistory, histLoop, closeEvent, fwdClose, dirOfHist, oGT, oLT,
    c6Frame, c6Event, h00, h1, h110, h42, hlt, hm2]

/-- Witness for C6: on `c6Frame` the emitted BULLISH event has its fire
close (110) strictly above its DMA (50). -/
theorem C6_direction_trend_consistent_witness : (50:ℚ) < 110 :=
  (C6_direction_trend_consistent c6Frame [c6Event] c6Event 1
    { close := 110, momentum := some 2, dma200 := some 50 } 50
    c6_hist_eval (by simp) rfl rfl rfl).1 rfl

/-- C9: for an event closed on a fire bar with a null 200 DMA, the
momentum-only fallback assigns BULLISH exactly when `momentum > 0` and
BEARISH in every other case — a NaN momentum and a momentum of exactly 0
are both classified BEARISH — and the fallback never yields INVALID. -/
theorem C9_momentum_only_fallback (f : List SqRow) (evs : List Event)
    (e : Event) (i : Nat) (row : SqRow)
    (hrun : getSqueezeHistory f = some evs) (he : e ∈ evs)
    (hend : e.endDate = .idx i) (hrow : f.get? i = some row)
    (hd : row.dma200 = none) :
    e.direction = (if oGT row.momentum (some 0) then .bullish else .bearish) ∧
    e.direction ≠ .invalid ∧
    (row.momentum = none → e.direction = .bearish) ∧
    (row.momentum = some 0 → e.direction = .bearish) ∧
    (∀ m, row.momentum = some m → 0 < m → e.direction = .bullish) := by
  obtain ⟨row2, hrow2, hdir, -, -, -, -⟩ :=
    getSqueezeHistory_good f evs hrun e he i hend
  have hre : row2 = row := by
    rw [hrow2] at hrow
    exact Option.some.inj hrow
  subst hre
  have hdir : e.direction =
      (if oGT row2.momentum (some 0) then HDir.bullish else HDir.bearish) := by
    rw [hdir, dirOfHist, hd]
  refine ⟨hdir, ?_, ?_, ?_, ?_⟩
  · rw [hdir]
    split_ifs
    · exact fun hcon => HDir.noConfusion hcon
    · exact fun hcon => HDir.noConfusion hcon
  · intro hm
    rw [hdir, hm]
    rfl
  · intro hm
    rw [hdir, hm]
    simp [oGT]
  · intro m hm h0
    rw [hdir, hm]
    simp [oGT, h0]

/-- Frame firing at bar 1 with no 200 DMA and a NaN momentum. -/
def c9Frame : List SqRow :=
  [{ close := 100, squeezeOn := true, bbWidth := some 1 },
   { close := 90 }]

/-- The one event `get_squeeze_history` emits on `c9Frame`: the fallback
classifies the NaN momentum as BEARISH. -/
def c9Event : Event :=
  { startDate := 0, endDate := .idx 1, duration := 1, direction := .bearish,
    bbWidthBefore := 1, minBBWidth := 1, priceAtBreakout := 90,
    move5d := 0, move10d := 0, move20d := 0, momentum := 0 }

lemma c9_hist_eval : getSqueezeHistory c9Frame = some [c9Event] := by
  have h00 : round2 (0:ℚ) = 0 := by norm_num [round2, rhe]
  have h1 : round2 (1:ℚ) = 1 := by norm_num [round2, rhe]
  have h90 : round2 (90:ℚ) = 90 := by norm_num [round2, rhe]
  simp [getSqueezeHistory, histLoop, closeEvent, fwdClose, dirOfHist, oGT,
    c9Frame, c9Event, h00, h1, h90]

/-- Witness for C9: on `c9Frame`'s NaN-momentum fire bar the fallback
yields BEARISH. -/
theorem C9_momentum_only_fallback_witness : c9Event.direction = HDir.bearish :=
  (C9_momentum_only_fallback c9Frame [c9Event] c9Event 1 { close := 90 }
    c9_hist_eval (by simp) rfl rfl rfl).2.2.1 rfl

/-! ## `scan_single_stock` / `scan_all_stocks` (squeeze_detector.py)

`fetch_stock_data` is an external collaborator (`fetch(symbol, period) ->
Optional[Bars]`); it is modelled as an oracle returning the
indicator-augmented frame (the indicator layer is a pure per-frame
transform, and the claims quantify over all frames).  The worker pool of
`scan_all_stocks` runs independent per-symbol tasks and collects non-None
results; the collection is modelled sequentially, which preserves the
result multiset. -/

/-- Python `int()` truncation toward zero on the exact value. -/
def truncInt (q : ℚ) : ℤ := if 0 ≤ q then ⌊q⌋ else ⌈q⌉

/-- One row of the `scan_all_stocks` result table (the dict built by
`scan_single_stock`). -/
structure ScanRow where
  symbol : String
  companyName : String
  currentPrice : ℚ
  priceChangePct : ℚ
  squeezeOn : Bool
  squeezeOff : Bool
  squeezeFire : Bool
  squeezeDuration : Nat
  momentum : ℚ
  momentumDirection : MomDir
  bbWidth : ℚ
  volume : ℤ
  dma200 : Option ℚ
  aboveDma200 : Option Bool
  dma200Dist : Option ℚ
  signalValid : Bool
  deriving DecidableEq, Repr

/-- The dict assembly of `scan_single_stock` after `detect_squeeze`:
`latest = df.iloc[-1]`, `prev = df.iloc[-2] if len(df) > 1 else latest`.
The rational division models the float arithmetic exactly away from a
zero previous close. -/
def mkScanRow (symbol companyName : String) (df : List IndRow) : ScanRow :=
  let latest := (df.getLast?).getD { close := 0 }
  let prev := if 1 < df.length then (df.get? (df.length - 2)).getD latest else latest
  let mom : ℚ := match latest.momentum with | some m => round4 m | none => 0
  { symbol := symbol
    companyName := companyName
    currentPrice := round2 latest.close
    priceChangePct := round2 ((latest.close - prev.close) / prev.close * 100)
    squeezeOn := (squeezeOnCol df).getLastD false
    squeezeOff := (squeezeOffCol df).getLastD false
    squeezeFire := (squeezeFireCol df).getLastD false
    squeezeDuration := (squeezeDurCol df).getLastD 0
    momentum := mom
    momentumDirection := latest.momDir
    bbWidth := match latest.bbWidth with | some w => round2 w | none => 0
    volume := match latest.volume with | some v => truncInt v | none => 0
    dma200 := latest.dma200.map round2
    aboveDma200 := latest.aboveDma200
    dma200Dist := latest.dma200Dist.map round2
    signalValid := match latest.aboveDma200 with
      | some b => if 0 < mom then b else !b
      | none => true }

/-- `scan_single_stock`: `None` when the fetch failed, the frame is empty
or the frame is shorter than `MIN_DATA_POINTS`; the bare `except` that
turns any in-scan error into `None` is subsumed by the totality of the
model. -/
def scanSingleStock (symbol companyName : String) (minPoints : Nat)
    (fetched : Option (List IndRow)) : Option ScanRow :=
  match fetched with
  | none => none
  | some df =>
    if df.length = 0 ∨ df.length < minPoints then none
    else some (mkScanRow symbol companyName df)

/-- Descending lexicographic priority of `scan_all_stocks`'s
`sort_values(by=['squeeze_on', 'squeeze_fire', 'squeeze_duration',
'momentum'], ascending=[False, False, False, False])`. -/
def rowBefore (a b : ScanRow) : Bool :=
  if a.squeezeOn ≠ b.squeezeOn then a.squeezeOn
  else if a.squeezeFire ≠ b.squeezeFire then a.squeezeFire
  else if a.squeezeDuration ≠ b.squeezeDuration then
    decide (b.squeezeDuration < a.squeezeDuration)
  else decide (b.momentum ≤ a.momentum)

/-- Insertion into a descending-sorted result list. -/
def insertRow (a : ScanRow) : List ScanRow → List ScanRow
  | [] => [a]
  | b :: bs => if rowBefore a b then a :: b :: bs else b :: insertRow a bs

/-- The sort of the collected result rows. -/
def sortRows (l : List ScanRow) : List ScanRow := l.foldr insertRow []

/-- `scan_all_stocks`: one `scan_single_stock` task per `(symbol,
company_name)` row, failures dropped, results sorted. -/
def scanAllStocks (stocks : List (String × String)) (minPoints : Nat)
    (fetch : String → Option (List IndRow)) : List ScanRow :=
  sortRows (stocks.filterMap (fun pr => scanSingleStock pr.1 pr.2 minPoints (fetch pr.1)))

section ScanLemmas

lemma insertRow_perm (a : ScanRow) (l : List ScanRow) :
    List.Perm (insertRow a l) (a :: l) := by
  induction l with
  | nil => exact List.Perm.refl _
  | cons b bs ih =>
    rw [insertRow]
    split_ifs
    · exact List.Perm.refl _
    · exact List.Perm.trans (List.Perm.cons b ih) (List.Perm.swap a b bs)

lemma sortRows_perm (l : List ScanRow) : List.Perm (sortRows l) l := by
  induction l with
  | nil => exact List.Perm.refl _
  | cons a l ih =>
    have : sortRows (a :: l) = insertRow a (sortRows l) := rfl
    rw [this]
    exact List.Perm.trans (insertRow_perm a (sortRows l)) (List.Perm.cons a ih)

lemma length_filterMap_isSome {α β : Type} (g : α → Option β) (l : List α) :
    (l.filterMap g).length = (l.filter (fun x => (g x).isSome)).length := by
  induction l with
  | nil => rfl
  | cons x l ih =>
    cases hx : g x with
    | none => simp [List.filterMap_cons, hx, ih]
    | some y => simp [List.filterMap_cons, hx, ih]

end ScanLemmas

/-- The 5-symbol batch of the C8 scenario: symbols B and D fail to
fetch, the other three return a usable frame. -/
def c8Stocks : List (String × String) :=
  [("A", ""), ("B", ""), ("C", ""), ("D", ""), ("E", "")]

/-- A minimal fetched frame for the succeeding symbols. -/
def c8Frame : List IndRow := [{ close := 10 }]

/-- Fetch oracle with two failing symbols. -/
def c8Fetch : String → Option (List IndRow) :=
  fun s => if s = "B" ∨ s = "D" then none else some c8Frame

/-- C8: a symbol whose per-symbol scan fails is simply omitted — the
result is a permutation-sorted copy of exactly the successful rows, its
length is the number of symbols whose scan succeeded, and the concrete
5-symbol batch with 2 fetch failures yields exactly 3 rows with no
exception (the model is total). -/
theorem C8_failures_omitted :
    (∀ (stocks : List (String × String)) (minPoints : Nat)
       (fetch : String → Option (List IndRow)),
       List.Perm (scanAllStocks stocks minPoints fetch)
         (stocks.filterMap (fun pr => scanSingleStock pr.1 pr.2 minPoints (fetch pr.1)))) ∧
    (∀ (stocks : List (String × String)) (minPoints : Nat)
       (fetch : String → Option (List IndRow)),
       (scanAllStocks stocks minPoints fetch).length
         = (stocks.filter
             (fun pr => (scanSingleStock pr.1 pr.2 minPoints (fetch pr.1)).isSome)).length) ∧
    (scanAllStocks c8Stocks 1 c8Fetch).length = 3 := by
  have hperm : ∀ (stocks : List (String × String)) (minPoints : Nat)
      (fetch : String → Option (List IndRow)),
      List.Perm (scanAllStocks stocks minPoints fetch)
        (stocks.filterMap (fun pr => scanSingleStock pr.1 pr.2 minPoints (fetch pr.1))) :=
    fun stocks minPoints fetch => sortRows_perm _
  have hlen : ∀ (stocks : List (String × String)) (minPoints : Nat)
      (fetch : String → Option (List IndRow)),
      (scanAllStocks stocks minPoints fetch).length
        = (stocks.filter
            (fun pr => (scanSingleStock pr.1 pr.2 minPoints (fetch pr.1)).isSome)).length := by
    intro stocks minPoints fetch
    rw [List.Perm.length_eq (hperm stocks minPoints fetch)]
    exact length_filterMap_isSome _ _
  refine ⟨hperm, hlen, ?_⟩
  rw [hlen c8Stocks 1 c8Fetch]
  rfl

end Squeeze
